import Mathlib

/-!
Verification of the three-player-chess mirabel/surena adapter pair
(`src/game.rs`, `src/frontend.rs`).

The rules engine (`three_player_chess` crate) and the pointer-interaction
surface (`three_player_chess_frontend` crate) are external capabilities:
they are modelled as parameter structures (`EngineOps`, `FeOps`), and the
adapter functions from the two source files are embedded as Lean functions
over those parameters.  Properties that depend on the engine behaving as
its capability contract describes appear as explicit hypotheses.

Rust panics (`expect` / `assert!`) are modelled by the `RRes.fatal`
constructor, recoverable errors by `RRes.err` carrying an error code and
message, mirroring the surena `Error` type.
-/

namespace TPCMirabel

/-- The engine's three-player colour enumeration `{P0, P1, P2}`. -/
inductive Color : Type
  | P0
  | P1
  | P2
  deriving DecidableEq, Repr

/-- `Color::from_u8` (num_traits `FromPrimitive`): 0 ↦ P0, 1 ↦ P1, 2 ↦ P2,
anything else fails. -/
def Color.fromU8 : Nat → Option Color
  | 0 => some .P0
  | 1 => some .P1
  | 2 => some .P2
  | _ + 3 => none

/-- `u8::from(color)`. -/
def Color.toU8 : Color → Nat
  | .P0 => 0
  | .P1 => 1
  | .P2 => 2

/-- `Color::next`: turns alternate P0 → P1 → P2 → P0. -/
def Color.next : Color → Color
  | .P0 => .P1
  | .P1 => .P2
  | .P2 => .P0

/-- `GameStatus` of the engine board: Ongoing, Win(player, reason) or
Draw(reason); reasons are opaque and modelled as `Nat`. -/
inductive GameStatus : Type
  | Ongoing
  | Win (player : Color) (reason : Nat)
  | Draw (reason : Nat)
  deriving DecidableEq, Repr

/-- The surena/mirabel error codes used by the two adapters. -/
inductive ErrorCode : Type
  | InvalidInput
  | InvalidState
  | InvalidLegacy
  | FeatureUnsupported
  | InvalidMove
  deriving DecidableEq, Repr

/-- A recoverable adapter error: code plus human-readable message. -/
structure Err : Type where
  code : ErrorCode
  msg : String
  deriving DecidableEq, Repr

/-- Result of an adapter operation: success, recoverable error, or a fatal
assertion/`expect` failure (Rust panic). -/
inductive RRes (α : Type) : Type
  | ok (a : α)
  | err (e : Err)
  | fatal (msg : String)
  deriving DecidableEq, Repr

/-- The rules-engine capability interface consumed (black-box) by both
adapters: board queries, move generation/validation/application, state and
move encode/decode, plus size constants used by the buffer sizer. -/
structure EngineOps (B M : Type) : Type where
  turn : B → Color
  gameStatus : B → GameStatus
  genMoves : B → List M
  isValidMove : B → M → Bool
  performMove : B → M → B
  fromString : String → Except String B
  stateString : B → String
  defaultBoard : B
  moveFromCode : Nat → Option M
  moveToCode : M → Nat
  moveFromStr : B → String → Option M
  moveToStr : B → M → String
  maxPositionStringSize : Nat
  maxMoveStringSize : Nat
  boardStringLen : Nat

/-- `GameOptions`: currently empty (reserved). -/
structure GameOptions : Type where
  deriving DecidableEq, Repr

/-- The `buf_sizer` capacity contract returned by `create`. -/
structure BufSizer : Type where
  options_str : Nat
  state_str : Nat
  player_count : Nat
  max_players_to_move : Nat
  max_moves : Nat
  max_results : Nat
  move_str : Nat
  print_str : Nat
  deriving DecidableEq, Repr

/-- `GameOptions::sizer` from `src/game.rs`. -/
def GameOptions.sizer {B M : Type} (eng : EngineOps B M) (_o : GameOptions) : BufSizer :=
  { options_str := 1
    state_str := eng.maxPositionStringSize + 1
    player_count := 3
    max_players_to_move := 1
    max_moves := 1024
    max_results := 1
    move_str := eng.maxMoveStringSize + 1
    print_str := eng.boardStringLen + 1 }

/-- `GameOptions::new`: parsing an options string currently always succeeds
with the empty options. -/
def GameOptions.new (_options : String) : Except Err GameOptions :=
  .ok {}

/-- `ThreePlayerChessGame`: options plus owned board. -/
structure ThreePlayerChessGame (B : Type) : Type where
  options : GameOptions
  board : B
  deriving DecidableEq, Repr

/-- The `GameInit` init-info variants of the host protocol. -/
inductive GameInit : Type
  | Default
  | Standard (opts : Option String) (legacy : Option String) (state : Option String)
  | Serialized (data : String)
  deriving DecidableEq, Repr

/-- `player_from_id` from `src/game.rs`: `Color::from_u8(player - 1)` with
`expect`.  `none` models the fatal panic (for id 0 the u8 subtraction
itself already overflows; for ids above 3 `from_u8` fails). -/
def player_from_id (player : Nat) : Option Color :=
  if player = 0 then none else Color.fromU8 (player - 1)

/-- `player_to_id` from `src/game.rs`: `u8::from(player) + 1`. -/
def player_to_id (player : Color) : Nat :=
  Color.toU8 player + 1

/-- `ThreePlayerChessGame::create` from `src/game.rs`. -/
def create {B M : Type} (eng : EngineOps B M) (init_info : GameInit) :
    Except Err (ThreePlayerChessGame B × BufSizer) := do
  let (optsStr, stateStr) ←
    match init_info with
    | .Default => pure ((none : Option String), (none : Option String))
    | .Standard opts legacy state =>
      if legacy.isSome then
        throw ⟨.InvalidLegacy, "unexpected legacy"⟩
      else
        pure (opts, state)
    | .Serialized _ => throw ⟨.FeatureUnsupported, "serialized init info unsupported"⟩
  let options ←
    match optsStr with
    | some s => GameOptions.new s
    | none => pure {}
  let sizer := options.sizer eng
  let board ←
    match stateStr with
    | some s =>
      match eng.fromString s with
      | .error errStr => throw ⟨.InvalidState, errStr⟩
      | .ok b => pure b
    | none => pure eng.defaultBoard
  pure (⟨options, board⟩, sizer)

/-- `players_to_move` from `src/game.rs`: singleton of the current turn
player while the game is ongoing, empty otherwise. -/
def players_to_move {B M : Type} (eng : EngineOps B M) (g : ThreePlayerChessGame B) :
    List Nat :=
  if eng.gameStatus g.board = .Ongoing then [player_to_id (eng.turn g.board)] else []

/-- `get_concrete_moves` from `src/game.rs`: the encoded legal moves when
the queried player is to move, empty otherwise; an invalid player id is a
fatal panic inside `player_from_id`. -/
def get_concrete_moves {B M : Type} (eng : EngineOps B M) (g : ThreePlayerChessGame B)
    (player : Nat) : RRes (List Nat) :=
  match player_from_id player with
  | none => .fatal "invalid player id"
  | some col =>
    .ok (if col = eng.turn g.board then (eng.genMoves g.board).map eng.moveToCode else [])

/-- `get_move_code` from `src/game.rs`. -/
def get_move_code {B M : Type} (eng : EngineOps B M) (g : ThreePlayerChessGame B)
    (_player : Nat) (string : String) : RRes Nat :=
  match eng.moveFromStr g.board string with
  | some mov => .ok (eng.moveToCode mov)
  | none => .err ⟨.InvalidInput, "failed to parse move " ++ string⟩

/-- `get_move_str` from `src/game.rs`: `Move::try_from(mov).expect(...)`,
so an undecodable code is a fatal panic, not a recoverable error. -/
def get_move_str {B M : Type} (eng : EngineOps B M) (g : ThreePlayerChessGame B)
    (_player : Nat) (mov : Nat) : RRes String :=
  match eng.moveFromCode mov with
  | none => .fatal "invalid move code"
  | some m => .ok (eng.moveToStr g.board m)

/-- `make_move` from `src/game.rs`: wrong turn, undecodable code and
illegal move are all fatal assertions; on success the move is applied. -/
def make_move {B M : Type} (eng : EngineOps B M) (g : ThreePlayerChessGame B)
    (player : Nat) (mov : Nat) : RRes (ThreePlayerChessGame B) :=
  match player_from_id player with
  | none => .fatal "invalid player id"
  | some col =>
    if col = eng.turn g.board then
      match eng.moveFromCode mov with
      | none => .fatal "failed to parse move code"
      | some m =>
        if eng.isValidMove g.board m then
          .ok { g with board := eng.performMove g.board m }
        else
          .fatal "attempted to make an illegal move"
    else
      .fatal "attempted to make a move for a player whose turn it is currently not"

/-- `get_results` from `src/game.rs`: empty while ongoing, the winner on a
win, and (currently) empty on a draw. -/
def get_results {B M : Type} (eng : EngineOps B M) (g : ThreePlayerChessGame B) :
    List Nat :=
  match eng.gameStatus g.board with
  | .Ongoing => []
  | .Win player _ => [player_to_id player]
  | .Draw _ => []

/-- `is_legal_move` from `src/game.rs`: the recoverable counterpart of the
`make_move` preconditions; every recoverable failure is `InvalidInput`. -/
def is_legal_move {B M : Type} (eng : EngineOps B M) (g : ThreePlayerChessGame B)
    (player : Nat) (mov : Nat) : RRes Unit :=
  match player_from_id player with
  | none => .fatal "invalid player id"
  | some col =>
    if eng.turn g.board ≠ col then
      .err ⟨.InvalidInput, "it is not currently this player's turn"⟩
    else
      match eng.moveFromCode mov with
      | none => .err ⟨.InvalidInput, "failed to parse move code"⟩
      | some m =>
        if eng.isValidMove g.board m then .ok ()
        else .err ⟨.InvalidInput, "failed to parse move code"⟩

/-! ## Interaction Adapter (`src/frontend.rs`) -/

/-- The external `three_player_chess_frontend::Frontend` state, as far as
this adapter observes and mutates it: the local board, the local move
history (the `rm.mov` component of each recorded entry), and the rest of
the frontend-internal state (cursor, dragged piece, display options, ...)
abstracted as `fx : E`. -/
structure Frontend (B M E : Type) : Type where
  board : B
  history : List M
  fx : E

/-- The black-box operations of the external frontend surface used by
`src/frontend.rs`: pointer handlers, reset, effect reset and move undo. -/
structure FeOps (B M E : Type) : Type where
  mouseMoved : Int → Int → Frontend B M E → Frontend B M E
  mouseClicked : Bool → Frontend B M E → Frontend B M E
  mouseReleased : Bool → Frontend B M E → Frontend B M E
  reset : Frontend B M E → Frontend B M E
  resetEffects : Frontend B M E → Frontend B M E
  undoMove : Frontend B M E → Frontend B M E

/-- `MirabelFrontend`: the owned frontend plus the `disabled` flag. -/
structure MirabelFrontend (B M E : Type) : Type where
  fe : Frontend B M E
  disabled : Bool

/-- The mirabel protocol events handled by `process_event`; every other
event kind is collapsed into `Other` (ignored by the source's `_ => ()`). -/
inductive MEvent : Type
  | GameLoadMethods (init_info : GameInit)
  | GameUnload
  | GameState (state : Option String)
  | GameMove (code : Nat)
  | Other
  deriving DecidableEq, Repr

/-- The SDL pointer events handled by `process_input`; every other event
kind is collapsed into `Other`. -/
inductive SDLEvent : Type
  | MouseMotion (x y : Int)
  | MouseButtonDown (x y : Int) (button : Nat)
  | MouseButtonUp (x y : Int) (button : Nat)
  | Other
  deriving DecidableEq, Repr

/-- `SDL_BUTTON_LEFT`. -/
def SDL_BUTTON_LEFT : Nat := 1

/-- `SDL_BUTTON_RIGHT`. -/
def SDL_BUTTON_RIGHT : Nat := 3

/-- `process_event` from `src/frontend.rs`.  Returns the state after the
call together with the recoverable error, if any (the Rust `&mut self` plus
early-`?`-return structure is modelled by returning the state reached when
the error propagates). -/
def process_event {B M E : Type} (eng : EngineOps B M) (ops : FeOps B M E)
    (st : MirabelFrontend B M E) (event : MEvent) :
    MirabelFrontend B M E × Option Err :=
  match event with
  | .GameLoadMethods init_info =>
    match create eng init_info with
    | .error e => (st, some e)
    | .ok (tpcg, _) =>
      let f := ops.reset st.fe
      let f := { f with board := tpcg.board }
      ({ fe := f, disabled := false }, none)
  | .GameUnload => ({ st with disabled := true }, none)
  | .GameState none => (st, none)
  | .GameState (some state_str) =>
    match eng.fromString state_str with
    | .error errStr => (st, some ⟨.InvalidState, errStr⟩)
    | .ok b => ({ fe := { st.fe with board := b }, disabled := false }, none)
  | .GameMove code =>
    match eng.moveFromCode code with
    | none => (st, some ⟨.InvalidMove, "invalid move code"⟩)
    | some m =>
      ({ st with fe := ops.resetEffects { st.fe with board := eng.performMove st.fe.board m } },
        none)
  | .Other => (st, none)

/-- The pointer-event dispatch inside `process_input`: forward the raw
event to the frontend's mouse handlers (motion first on button events, then
click/release depending on the SDL button constant). -/
def inputDispatch {B M E : Type} (ops : FeOps B M E) (event : SDLEvent)
    (f : Frontend B M E) : Frontend B M E :=
  match event with
  | .MouseMotion x y => ops.mouseMoved x y f
  | .MouseButtonDown x y btn =>
    let f := ops.mouseMoved x y f
    if btn = SDL_BUTTON_LEFT then ops.mouseClicked false f
    else if btn = SDL_BUTTON_RIGHT then ops.mouseClicked true f
    else f
  | .MouseButtonUp x y btn =>
    let f := ops.mouseMoved x y f
    if btn = SDL_BUTTON_LEFT then ops.mouseReleased false f
    else if btn = SDL_BUTTON_RIGHT then ops.mouseReleased true f
    else f
  | .Other => f

/-- The diff-and-report loop of `process_input`: one outbox entry
`(player_to_id mover, move code)` per new history entry, the mover
advancing by `Color.next` after each reported move. -/
def emitOutbox {B M : Type} (eng : EngineOps B M) (current_turn : Color) :
    List M → List (Nat × Nat)
  | [] => []
  | m :: rest =>
    (player_to_id current_turn, eng.moveToCode m) :: emitOutbox eng current_turn.next rest

/-- `n` applications of the frontend's `undo_move`. -/
def undoN {B M E : Type} (ops : FeOps B M E) : Nat → Frontend B M E → Frontend B M E
  | 0, f => f
  | n + 1, f => undoN ops n (ops.undoMove f)

/-- `process_input` from `src/frontend.rs`: a no-op while `disabled`;
otherwise record the history length and current turn, forward the pointer
event, emit one outbox event per appended history entry (movers alternating
from the recorded turn), and undo exactly the appended moves.  Returns the
state after the call and the outbox entries pushed during it. -/
def process_input {B M E : Type} (eng : EngineOps B M) (ops : FeOps B M E)
    (st : MirabelFrontend B M E) (event : SDLEvent) :
    MirabelFrontend B M E × List (Nat × Nat) :=
  if st.disabled then (st, [])
  else
    let history_len := st.fe.history.length
    let current_turn := eng.turn st.fe.board
    let f1 := inputDispatch ops event st.fe
    let newMoves := f1.history.drop history_len
    let outbox := emitOutbox eng current_turn newMoves
    let f2 := undoN ops newMoves.length f1
    ({ st with fe := f2 }, outbox)

/-! ## Capability contract of the external interaction surface

The spec (§2, §4.2, §6) describes the external frontend surface: a pointer
handler may speculatively apply zero or more completed moves to the local
board (via the engine's `performMove`) and records exactly those moves, in
order, at the end of the local history; `undo_move` reverts the most
recently applied move and pops it from the history.  These are the
black-box assumptions the rollback logic of `process_input` relies on. -/

/-- A frontend operation that only speculatively applies moves: it appends
some list of moves to the history and advances the board by exactly those
moves via the engine's `performMove`. -/
def SpecStep {B M E : Type} (eng : EngineOps B M) (g : Frontend B M E → Frontend B M E) :
    Prop :=
  ∀ f : Frontend B M E, ∃ new : List M,
    (g f).history = f.history ++ new ∧
    (g f).board = List.foldl eng.performMove f.board new

/-- The capability contract of the external interaction surface: each
pointer handler is a `SpecStep`, and `undo_move` reverts the last
speculatively applied move and pops it from the history. -/
structure FeSpec {B M E : Type} (eng : EngineOps B M) (ops : FeOps B M E) : Prop where
  moved_step : ∀ x y : Int, SpecStep eng (ops.mouseMoved x y)
  clicked_step : ∀ r : Bool, SpecStep eng (ops.mouseClicked r)
  released_step : ∀ r : Bool, SpecStep eng (ops.mouseReleased r)
  undo_move : ∀ (f : Frontend B M E) (b : B) (m : M) (h : List M),
    f.board = eng.performMove b m → f.history = h ++ [m] →
    (ops.undoMove f).board = b ∧ (ops.undoMove f).history = h

theorem SpecStep.id {B M E : Type} (eng : EngineOps B M) :
    SpecStep eng (fun f : Frontend B M E => f) := by
  intro f
  exact ⟨[], by simp⟩

theorem SpecStep.comp {B M E : Type} (eng : EngineOps B M)
    {g g2 : Frontend B M E → Frontend B M E}
    (hg : SpecStep eng g) (hg2 : SpecStep eng g2) :
    SpecStep eng (fun f => g2 (g f)) := by
  intro f
  obtain ⟨n1, hh1, hb1⟩ := hg f
  obtain ⟨n2, hh2, hb2⟩ := hg2 (g f)
  refine ⟨n1 ++ n2, ?_, ?_⟩
  · rw [hh2, hh1, List.append_assoc]
  · rw [hb2, hb1, List.foldl_append]

/-- The pointer-event dispatch is itself a `SpecStep` under the surface
contract: it is a composition of the three handlers. -/
theorem inputDispatch_specStep {B M E : Type} {eng : EngineOps B M} {ops : FeOps B M E}
    (hspec : FeSpec eng ops) (event : SDLEvent) :
    SpecStep eng (inputDispatch ops event) := by
  cases event with
  | MouseMotion x y => exact hspec.moved_step x y
  | MouseButtonDown x y btn =>
    by_cases h1 : btn = SDL_BUTTON_LEFT
    · simpa [inputDispatch, h1] using
        SpecStep.comp eng (hspec.moved_step x y) (hspec.clicked_step false)
    · by_cases h2 : btn = SDL_BUTTON_RIGHT
      · simpa [inputDispatch, h1, h2] using
          SpecStep.comp eng (hspec.moved_step x y) (hspec.clicked_step true)
      · simpa [inputDispatch, h1, h2, SpecStep] using hspec.moved_step x y
  | MouseButtonUp x y btn =>
    by_cases h1 : btn = SDL_BUTTON_LEFT
    · simpa [inputDispatch, h1] using
        SpecStep.comp eng (hspec.moved_step x y) (hspec.released_step false)
    · by_cases h2 : btn = SDL_BUTTON_RIGHT
      · simpa [inputDispatch, h1, h2] using
          SpecStep.comp eng (hspec.moved_step x y) (hspec.released_step true)
      · simpa [inputDispatch, h1, h2, SpecStep] using hspec.moved_step x y
  | Other => exact SpecStep.id eng

/-- Undoing exactly the speculatively applied moves restores both the board
and the history to their values from before the application. -/
theorem undoN_restores {B M E : Type} {eng : EngineOps B M} {ops : FeOps B M E}
    (hspec : FeSpec eng ops) (new : List M) :
    ∀ (f : Frontend B M E) (b : B) (h : List M),
      f.history = h ++ new → f.board = List.foldl eng.performMove b new →
      (undoN ops new.length f).board = b ∧ (undoN ops new.length f).history = h := by
  induction new using List.reverseRecOn with
  | nil =>
    intro f b h hh hb
    simpa [undoN] using ⟨hb, by simpa using hh⟩
  | append_singleton ys m ih =>
    intro f b h hh hb
    have hb' : f.board = eng.performMove (List.foldl eng.performMove b ys) m := by
      simpa [List.foldl_append] using hb
    have hh' : f.history = (h ++ ys) ++ [m] := by
      simpa [List.append_assoc] using hh
    obtain ⟨hub, huh⟩ := hspec.undo_move f (List.foldl eng.performMove b ys) m (h ++ ys) hb' hh'
    have hlen : (ys ++ [m]).length = ys.length + 1 := by simp
    rw [hlen]
    exact ih (ops.undoMove f) b h (by simpa using huh) (by simpa using hub)

theorem emitOutbox_length {B M : Type} (eng : EngineOps B M) (t : Color) (l : List M) :
    (emitOutbox eng t l).length = l.length := by
  induction l generalizing t with
  | nil => rfl
  | cons m rest ih => simp [emitOutbox, ih]

theorem emitOutbox_getElem {B M : Type} (eng : EngineOps B M) (l : List M) :
    ∀ (t : Color) (i : Nat), (hi : i < l.length) →
      (emitOutbox eng t l)[i]? =
        some (player_to_id (Color.next^[i] t), eng.moveToCode l[i]) := by
  induction l with
  | nil => intro t i hi; simp at hi
  | cons m rest ih =>
    intro t i hi
    cases i with
    | zero => simp [emitOutbox]
    | succ j =>
      have hj : j < rest.length := by simpa using hi
      have := ih t.next j hj
      simpa [emitOutbox, Function.iterate_succ_apply] using this

/-! ## A concrete engine and interaction surface

A small executable instance of the two capability interfaces, used to
evaluate the adapter functions on concrete inputs.  A board is the list of
move codes played so far; moves are the codes `0` and `1`; the turn cycles
with the number of moves played. -/

/-- Concrete engine instance: boards are lists of played moves, moves are
the naturals below 2, the turn cycles P0 → P1 → P2 with the move count,
and the state string "bad" fails to decode. -/
def toyEng : EngineOps (List Nat) Nat where
  turn b :=
    match b.length % 3 with
    | 0 => .P0
    | 1 => .P1
    | _ => .P2
  gameStatus _ := .Ongoing
  genMoves _ := [0, 1]
  isValidMove _ m := decide (m < 2)
  performMove b m := b ++ [m]
  fromString s := if s = "bad" then .error "parse error" else .ok []
  stateString _ := ""
  defaultBoard := []
  moveFromCode c := if c < 2 then some c else none
  moveToCode m := m
  moveFromStr _ s := if s = "a" then some 0 else none
  moveToStr _ _ := "a"
  maxPositionStringSize := 16
  maxMoveStringSize := 8
  boardStringLen := 32

/-- Concrete interaction surface over `toyEng`: a left-button press plays
move `0` speculatively; undo pops the last move from board and history. -/
def toyOps : FeOps (List Nat) Nat Unit where
  mouseMoved _ _ f := f
  mouseClicked r f :=
    if r then f else { f with board := f.board ++ [0], history := f.history ++ [0] }
  mouseReleased _ f := f
  reset _ := ⟨[], [], ()⟩
  resetEffects f := f
  undoMove f := { f with board := f.board.dropLast, history := f.history.dropLast }

/-- The toy game instance at the standard starting position. -/
def toyGame : ThreePlayerChessGame (List Nat) :=
  ⟨{}, toyEng.defaultBoard⟩

/-- A toy frontend session state: empty board and history, enabled. -/
def toySt : MirabelFrontend (List Nat) Nat Unit :=
  ⟨⟨[], [], ()⟩, false⟩

/-- The toy surface satisfies the interaction-surface contract. -/
theorem toy_feSpec : FeSpec toyEng toyOps := by
  constructor
  · intro x y f
    exact ⟨[], by simp [toyOps]⟩
  · intro r f
    cases r with
    | false => exact ⟨[0], by simp [toyOps, toyEng]⟩
    | true => exact ⟨[], by simp [toyOps]⟩
  · intro r f
    exact ⟨[], by simp [toyOps]⟩
  · intro f b m h hb hh
    constructor
    · simp [toyOps, hb, toyEng]
    · simp [toyOps, hh]

/-- The toy engine generates exactly its valid moves. -/
theorem toy_genValid (b : List Nat) (m : Nat) :
    toyEng.isValidMove b m = true ↔ m ∈ toyEng.genMoves b := by
  simp [toyEng]
  omega

/-- Toy move-code round trip: encoding a generated move decodes back. -/
theorem toy_encDec (b : List Nat) (m : Nat) (hm : m ∈ toyEng.genMoves b) :
    toyEng.moveFromCode (toyEng.moveToCode m) = some m := by
  simp [toyEng] at hm
  rcases hm with h | h <;> simp [toyEng, h]

/-- Toy move-code round trip: a decodable code re-encodes to itself. -/
theorem toy_decEnc (c m : Nat) (h : toyEng.moveFromCode c = some m) :
    toyEng.moveToCode m = c := by
  simp [toyEng] at h ⊢
  by_cases hc : c < 2 <;> simp [hc] at h
  omega

/-- The toy engine advances the turn cyclically on every valid move. -/
theorem toy_turnNext (b : List Nat) (m : Nat) (_h : toyEng.isValidMove b m = true) :
    toyEng.turn (toyEng.performMove b m) = (toyEng.turn b).next := by
  show (match (b ++ [m]).length % 3 with
    | 0 => Color.P0 | 1 => Color.P1 | _ => Color.P2) =
    Color.next (match b.length % 3 with
    | 0 => Color.P0 | 1 => Color.P1 | _ => Color.P2)
  have hlen : (b ++ [m]).length = b.length + 1 := by simp
  rw [hlen]
  have h3 : b.length % 3 = 0 ∨ b.length % 3 = 1 ∨ b.length % 3 = 2 := by omega
  have hsucc : (b.length + 1) % 3 = (b.length % 3 + 1) % 3 := by
    omega
  rcases h3 with h | h | h <;> rw [hsucc, h] <;> rfl

/-! ## Helper lemmas about player ids -/

/-- A successfully decoded player id round-trips back to itself. -/
theorem player_to_id_from_id {p : Nat} {c : Color} (h : player_from_id p = some c) :
    player_to_id c = p := by
  match p with
  | 0 => simp [player_from_id] at h
  | 1 =>
    simp [player_from_id, Color.fromU8] at h
    simp [← h, player_to_id, Color.toU8]
  | 2 =>
    simp [player_from_id, Color.fromU8] at h
    simp [← h, player_to_id, Color.toU8]
  | 3 =>
    simp [player_from_id, Color.fromU8] at h
    simp [← h, player_to_id, Color.toU8]
  | n + 4 => simp [player_from_id, Color.fromU8] at h

/-- `player_to_id` is injective. -/
theorem player_to_id_inj {a b : Color} (h : player_to_id a = player_to_id b) : a = b := by
  cases a <;> cases b <;> first | rfl | simp [player_to_id, Color.toU8] at h

/-- The successor player is never the player itself. -/
theorem Color.next_ne (c : Color) : c.next ≠ c := by
  cases c <;> simp [Color.next]

/-! ## The claims -/

/-- C8: for every valid external player id x ∈ {1, 2, 3},
`player_to_id (player_from_id x) = x`, and for every out-of-range id
(0 or above 3) `player_from_id` fails fatally (decodes to `none`, the
embedded panic) rather than silently wrapping to a valid player. -/
theorem claim_C8_player_id_roundtrip (x : Nat) :
    (1 ≤ x → x ≤ 3 → ∃ c, player_from_id x = some c ∧ player_to_id c = x) ∧
    ((x = 0 ∨ 4 ≤ x) → player_from_id x = none) := by
  constructor
  · intro h1 h3
    interval_cases x
    · exact ⟨.P0, rfl, rfl⟩
    · exact ⟨.P1, rfl, rfl⟩
    · exact ⟨.P2, rfl, rfl⟩
  · intro h
    rcases h with h | h
    · simp [h, player_from_id]
    · obtain ⟨y, rfl⟩ : ∃ y, x = y + 4 := ⟨x - 4, by omega⟩
      rfl

/-- C8 witness: the round trip holds at id 3, and id 0 fails fatally. -/
theorem claim_C8_witness :
    (∃ c, player_from_id 3 = some c ∧ player_to_id c = 3) ∧ player_from_id 0 = none :=
  ⟨(claim_C8_player_id_roundtrip 3).1 (by decide) (by decide),
   (claim_C8_player_id_roundtrip 0).2 (Or.inl rfl)⟩

/-- C5: `create` fails with `FeatureUnsupported` on every Serialized
init-info, with `InvalidLegacy` on every Standard init-info carrying a
legacy field, with `InvalidState` (carrying the engine diagnostic) when the
state string does not decode, and produces the engine's standard starting
position when neither state nor serialized input is given. -/
theorem claim_C5_create_errors {B M : Type} (eng : EngineOps B M) :
    (∀ data, create eng (.Serialized data) =
      .error ⟨.FeatureUnsupported, "serialized init info unsupported"⟩) ∧
    (∀ opts leg state, create eng (.Standard opts (some leg) state) =
      .error ⟨.InvalidLegacy, "unexpected legacy"⟩) ∧
    (∀ opts errStr s, eng.fromString s = .error errStr →
      create eng (.Standard opts none (some s)) = .error ⟨.InvalidState, errStr⟩) ∧
    (create eng .Default = .ok (⟨{}, eng.defaultBoard⟩, GameOptions.sizer eng {}) ∧
     ∀ opts, create eng (.Standard opts none none) =
       .ok (⟨{}, eng.defaultBoard⟩, GameOptions.sizer eng {})) := by
  refine ⟨fun data => rfl, fun opts leg state => rfl, ?_, rfl, ?_⟩
  · intro opts errStr s h
    cases opts <;>
      simp [create, GameOptions.new, h, throw, throwThe, MonadExceptOf.throw, Except.map,
        Except.bind, Bind.bind, pure, Except.pure]
  · intro opts
    cases opts <;> rfl

/-- C5 witness: a malformed state string fails with `InvalidState` and the
engine's diagnostic text on the concrete engine instance. -/
theorem claim_C5_witness :
    create toyEng (.Standard none none (some "bad")) =
      .error ⟨.InvalidState, "parse error"⟩ :=
  (claim_C5_create_errors toyEng).2.2.1 none "parse error" "bad" (by simp [toyEng])

/-- C7: after `process_event GameUnload` the disabled flag is true (with no
error), and while disabled every pointer-input event is a complete no-op:
the state is returned unchanged and the outbox stays empty. -/
theorem claim_C7_unload_disables {B M E : Type} (eng : EngineOps B M) (ops : FeOps B M E)
    (st st2 : MirabelFrontend B M E) (event : SDLEvent) :
    (process_event eng ops st .GameUnload).1.disabled = true ∧
    (process_event eng ops st .GameUnload).2 = none ∧
    (st2.disabled = true → process_input eng ops st2 event = (st2, [])) := by
  refine ⟨rfl, rfl, ?_⟩
  intro h
  simp [process_input, h]

/-- C7 witness: a disabled toy session ignores a pointer event. -/
theorem claim_C7_witness :
    process_input toyEng toyOps ⟨⟨[], [], ()⟩, true⟩ (.MouseButtonDown 0 0 1) =
      (⟨⟨[], [], ()⟩, true⟩, []) :=
  (claim_C7_unload_disables toyEng toyOps toySt ⟨⟨[], [], ()⟩, true⟩
    (.MouseButtonDown 0 0 1)).2.2 rfl

/-- C9: `process_event` is atomic on error: when a GameLoadMethods event
(initial `create` fails) or a GameState event (resync string does not
decode) returns an error, the returned `MirabelFrontend` state — local
board and disabled flag — is exactly the pre-call state. -/
theorem claim_C9_atomic_on_error {B M E : Type} (eng : EngineOps B M) (ops : FeOps B M E)
    (st : MirabelFrontend B M E) (init_info : GameInit) (s : Option String) :
    (∀ e, (process_event eng ops st (.GameLoadMethods init_info)).2 = some e →
      (process_event eng ops st (.GameLoadMethods init_info)).1 = st) ∧
    (∀ e, (process_event eng ops st (.GameState s)).2 = some e →
      (process_event eng ops st (.GameState s)).1 = st) := by
  constructor
  · intro e h
    cases hc : create eng init_info with
    | error e2 => simp [process_event, hc]
    | ok v => simp [process_event, hc] at h
  · intro e h
    cases s with
    | none => rfl
    | some str =>
      cases hs : eng.fromString str with
      | error errStr => simp [process_event, hs]
      | ok b => simp [process_event, hs] at h

/-- C9 witness: a failing load (Serialized init-info) and a failing resync
(malformed state string) both leave the concrete session state unchanged. -/
theorem claim_C9_witness :
    (process_event toyEng toyOps toySt (.GameLoadMethods (.Serialized "x"))).1 = toySt ∧
    (process_event toyEng toyOps toySt (.GameState (some "bad"))).1 = toySt :=
  ⟨(claim_C9_atomic_on_error toyEng toyOps toySt (.Serialized "x") (some "bad")).1
      ⟨.FeatureUnsupported, "serialized init info unsupported"⟩ rfl,
   (claim_C9_atomic_on_error toyEng toyOps toySt (.Serialized "x") (some "bad")).2
      ⟨.InvalidState, "parse error"⟩ (by simp [process_event, toyEng])⟩

/-- C10: a GameState event with an absent state is a complete no-op (board
kept, disabled flag kept, no error), while a GameState event whose state
string decodes replaces the board and clears the disabled flag. -/
theorem claim_C10_gamestate_none_noop {B M E : Type} (eng : EngineOps B M)
    (ops : FeOps B M E) (st : MirabelFrontend B M E) :
    process_event eng ops st (.GameState none) = (st, none) ∧
    (∀ s b, eng.fromString s = .ok b →
      process_event eng ops st (.GameState (some s)) =
        ({ fe := { st.fe with board := b }, disabled := false }, none)) := by
  refine ⟨rfl, ?_⟩
  intro s b h
  simp [process_event, h]

/-- C10 witness: a decodable resync string replaces the board and clears
disabled on the concrete session. -/
theorem claim_C10_witness :
    process_event toyEng toyOps ⟨⟨[7], [], ()⟩, true⟩ (.GameState (some "")) =
      (⟨⟨[], [], ()⟩, false⟩, none) :=
  (claim_C10_gamestate_none_noop toyEng toyOps ⟨⟨[7], [], ()⟩, true⟩).2 "" []
    (by simp [toyEng])

/-- C1 counterexample: the move code 999 does not decode to a valid move,
yet `get_move_str` does not return a recoverable `InvalidMove`/`InvalidInput`
error — it hits the `expect("invalid move code")` panic, i.e. a crash. -/
theorem claim_C1_counterexample :
    toyEng.moveFromCode 999 = none ∧
    get_move_str toyEng toyGame 1 999 = .fatal "invalid move code" := by
  constructor
  · simp [toyEng]
  · rfl

/-- C1 (amended): for every move code that does not decode, the Interaction
Adapter's GameMove handler returns the recoverable `InvalidMove` error and
leaves the state unchanged, but the Game Adapter's `get_move_str` fails
with a fatal assertion (`expect`), not a recoverable error. -/
theorem claim_C1_decode_failure {B M E : Type} (eng : EngineOps B M) (ops : FeOps B M E)
    (st : MirabelFrontend B M E) (g : ThreePlayerChessGame B) (player code : Nat)
    (hdec : eng.moveFromCode code = none) :
    process_event eng ops st (.GameMove code) =
      (st, some ⟨.InvalidMove, "invalid move code"⟩) ∧
    get_move_str eng g player code = .fatal "invalid move code" := by
  constructor
  · simp [process_event, hdec]
  · simp [get_move_str, hdec]

/-- C1 witness: the amended behaviour at the concrete undecodable code. -/
theorem claim_C1_witness :
    process_event toyEng toyOps toySt (.GameMove 999) =
      (toySt, some ⟨.InvalidMove, "invalid move code"⟩) :=
  (claim_C1_decode_failure toyEng toyOps toySt toyGame 1 999 (by simp [toyEng])).1

/-- C6: `players_to_move` is the singleton of the current turn player while
the status is Ongoing and empty otherwise; consequently after a successful
`make_move` it contains only the new mover and never the player who just
moved (given that the engine advances the turn to the next player on every
valid move, as three-player chess does). -/
theorem claim_C6_players_to_move {B M : Type} (eng : EngineOps B M)
    (g g2 : ThreePlayerChessGame B) (player mov : Nat)
    (hnext : ∀ b m, eng.isValidMove b m = true →
      eng.turn (eng.performMove b m) = (eng.turn b).next)
    (hmk : make_move eng g player mov = .ok g2) :
    players_to_move eng g2 =
      (if eng.gameStatus g2.board = .Ongoing
        then [player_to_id (eng.turn g2.board)] else []) ∧
    player ∉ players_to_move eng g2 := by
  refine ⟨rfl, ?_⟩
  unfold make_move at hmk
  cases hid : player_from_id player with
  | none => simp [hid] at hmk
  | some col =>
    simp only [hid] at hmk
    by_cases hcol : col = eng.turn g.board
    · rw [if_pos hcol] at hmk
      cases hdc : eng.moveFromCode mov with
      | none => simp [hdc] at hmk
      | some m =>
        simp only [hdc] at hmk
        by_cases hval : eng.isValidMove g.board m = true
        · rw [if_pos hval] at hmk
          have hg2 : g2 = { g with board := eng.performMove g.board m } := by
            cases hmk; rfl
          intro hp
          unfold players_to_move at hp
          split at hp
          · simp only [List.mem_singleton] at hp
            have hturn : eng.turn g2.board = (eng.turn g.board).next := by
              rw [hg2]
              exact hnext g.board m hval
            have hplayer : player = player_to_id col := (player_to_id_from_id hid).symm
            rw [hp, hturn, ← hcol] at hplayer
            exact Color.next_ne col (player_to_id_inj hplayer)
          · simp at hp
        · rw [if_neg hval] at hmk; simp at hmk
    · rw [if_neg hcol] at hmk; simp at hmk

/-- C6 witness: on the concrete engine, after player 1 makes move 0 from
the start position, only player 2 is to move. -/
theorem claim_C6_witness :
    players_to_move toyEng ⟨{}, [0]⟩ =
      (if toyEng.gameStatus (⟨{}, [0]⟩ : ThreePlayerChessGame (List Nat)).board = .Ongoing
        then [player_to_id (toyEng.turn (⟨{}, [0]⟩ : ThreePlayerChessGame (List Nat)).board)]
        else []) ∧
    1 ∉ players_to_move toyEng ⟨{}, [0]⟩ :=
  claim_C6_players_to_move toyEng toyGame ⟨{}, [0]⟩ 1 0 toy_turnNext (by decide)

/-- C4: `is_legal_move player code` succeeds exactly when `code` appears in
the list returned by `get_concrete_moves player`, and every recoverable
failure of `is_legal_move` is an `InvalidInput` error (wrong turn,
undecodable code, or illegal move).  The engine hypotheses say that the
generated moves are exactly the valid ones and that the move encoding
round-trips — the capability contract of the rules engine. -/
theorem claim_C4_is_legal_iff {B M : Type} (eng : EngineOps B M)
    (g : ThreePlayerChessGame B) (player code : Nat)
    (hgen : ∀ m, eng.isValidMove g.board m = true ↔ m ∈ eng.genMoves g.board)
    (henc : ∀ m, m ∈ eng.genMoves g.board →
      eng.moveFromCode (eng.moveToCode m) = some m)
    (hdec : ∀ c m, eng.moveFromCode c = some m → eng.moveToCode m = c) :
    (is_legal_move eng g player code = .ok () ↔
      ∃ l, get_concrete_moves eng g player = .ok l ∧ code ∈ l) ∧
    (∀ e, is_legal_move eng g player code = .err e → e.code = .InvalidInput) := by
  constructor
  · unfold is_legal_move get_concrete_moves
    cases hid : player_from_id player with
    | none => simp
    | some col =>
      simp only
      by_cases hcol : eng.turn g.board = col
      · rw [if_neg (by simp [hcol]), if_pos hcol.symm]
        have hr : (∃ l, (RRes.ok ((eng.genMoves g.board).map eng.moveToCode)) = .ok l ∧
            code ∈ l) ↔ code ∈ (eng.genMoves g.board).map eng.moveToCode := by
          constructor
          · rintro ⟨l, hl, hc⟩
            simp only [RRes.ok.injEq] at hl
            exact hl ▸ hc
          · intro hc
            exact ⟨_, rfl, hc⟩
        rw [hr]
        cases hdc : eng.moveFromCode code with
        | none =>
          simp only
          constructor
          · intro h; exact absurd h (by simp)
          · intro hc
            obtain ⟨m, hm, hcode⟩ := List.mem_map.mp hc
            rw [← hcode, henc m hm] at hdc
            cases hdc
        | some m =>
          simp only
          by_cases hval : eng.isValidMove g.board m = true
          · rw [if_pos hval]
            constructor
            · intro _
              exact List.mem_map.mpr ⟨m, (hgen m).mp hval, hdec code m hdc⟩
            · intro _; rfl
          · rw [if_neg hval]
            constructor
            · intro h; exact absurd h (by simp)
            · intro hc
              obtain ⟨m2, hm2, hcode⟩ := List.mem_map.mp hc
              rw [← hcode, henc m2 hm2] at hdc
              have hm2m : m2 = m := by
                injection hdc
              exact absurd ((hgen m).mpr (hm2m ▸ hm2)) hval
      · rw [if_pos (by simpa using hcol), if_neg (fun h => hcol h.symm)]
        constructor
        · intro h; exact absurd h (by simp)
        · rintro ⟨l, hl, hc⟩
          simp only [RRes.ok.injEq] at hl
          rw [← hl] at hc
          simp at hc
  · intro e he
    unfold is_legal_move at he
    cases hid : player_from_id player with
    | none => simp [hid] at he
    | some col =>
      simp only [hid] at he
      by_cases hcol : eng.turn g.board ≠ col
      · rw [if_pos hcol] at he
        cases he; rfl
      · rw [if_neg hcol] at he
        cases hdc : eng.moveFromCode code with
        | none => simp only [hdc] at he; cases he; rfl
        | some m =>
          simp only [hdc] at he
          by_cases hval : eng.isValidMove g.board m = true
          · rw [if_pos hval] at he; cases he
          · rw [if_neg hval] at he; cases he; rfl

/-- C4 witness: on the concrete engine at the start position, move code 0
is accepted by `is_legal_move` for player 1. -/
theorem claim_C4_witness :
    is_legal_move toyEng toyGame 1 0 = .ok () :=
  ((claim_C4_is_legal_iff toyEng toyGame 1 0 (toy_genValid []) (toy_encDec [])
      toy_decEnc).1).mpr ⟨[0, 1], by decide, by decide⟩

/-- C2: for every pointer-input event processed while enabled,
`process_input` performs exactly `historyLenAfter − historyLenBefore` undo
operations on the speculatively advanced frontend, and — under the
interaction-surface contract — this restores both the local board and the
local history to their pre-call values. -/
theorem claim_C2_rollback {B M E : Type} (eng : EngineOps B M) (ops : FeOps B M E)
    (hspec : FeSpec eng ops) (st : MirabelFrontend B M E) (event : SDLEvent)
    (hen : st.disabled = false) :
    (process_input eng ops st event).1.fe =
      undoN ops ((inputDispatch ops event st.fe).history.length - st.fe.history.length)
        (inputDispatch ops event st.fe) ∧
    (process_input eng ops st event).1.fe.board = st.fe.board ∧
    (process_input eng ops st event).1.fe.history = st.fe.history := by
  obtain ⟨new, hh, hb⟩ := inputDispatch_specStep hspec event st.fe
  have hdrop : (inputDispatch ops event st.fe).history.drop st.fe.history.length = new := by
    rw [hh]
    exact List.drop_left _ _
  have hfe : (process_input eng ops st event).1.fe =
      undoN ops new.length (inputDispatch ops event st.fe) := by
    simp [process_input, hen, hdrop]
  have hres := undoN_restores hspec new (inputDispatch ops event st.fe)
    st.fe.board st.fe.history hh hb
  refine ⟨?_, ?_, ?_⟩
  · rw [hfe, hh]
    simp
  · rw [hfe]
    exact hres.1
  · rw [hfe]
    exact hres.2

/-- C2 witness: on the concrete surface, a left-button press (which
speculatively plays one move) leaves the board and history unchanged after
`process_input` returns. -/
theorem claim_C2_witness :
    (process_input toyEng toyOps toySt (.MouseButtonDown 0 0 1)).1.fe.board =
      toySt.fe.board ∧
    (process_input toyEng toyOps toySt (.MouseButtonDown 0 0 1)).1.fe.history =
      toySt.fe.history :=
  (claim_C2_rollback toyEng toyOps toy_feSpec toySt (.MouseButtonDown 0 0 1) rfl).2

/-- C3: a pointer-input event processed while enabled that appends `new` to
the local history emits exactly one outbox event per appended entry, in
append order; the mover of the i-th event is `Color.next` applied i times
to the turn recorded before the input was forwarded, and the emitted code
is the appended entry's move code. -/
theorem claim_C3_outbox_events {B M E : Type} (eng : EngineOps B M) (ops : FeOps B M E)
    (st : MirabelFrontend B M E) (event : SDLEvent) (new : List M)
    (hen : st.disabled = false)
    (happ : (inputDispatch ops event st.fe).history = st.fe.history ++ new) :
    (process_input eng ops st event).2.length = new.length ∧
    ∀ i, (hi : i < new.length) →
      (process_input eng ops st event).2[i]? =
        some (player_to_id (Color.next^[i] (eng.turn st.fe.board)),
          eng.moveToCode new[i]) := by
  have hdrop : (inputDispatch ops event st.fe).history.drop st.fe.history.length = new := by
    rw [happ]
    exact List.drop_left _ _
  have hout : (process_input eng ops st event).2 =
      emitOutbox eng (eng.turn st.fe.board) new := by
    simp [process_input, hen, hdrop]
  constructor
  · rw [hout, emitOutbox_length]
  · intro i hi
    rw [hout]
    exact emitOutbox_getElem eng new (eng.turn st.fe.board) i hi

/-- C3 witness: the concrete left-button press appends one move (code 0);
exactly one outbox event is emitted, carrying player id 1 (the pre-call
turn P0) and move code 0. -/
theorem claim_C3_witness :
    (process_input toyEng toyOps toySt (.MouseButtonDown 0 0 1)).2.length = 1 ∧
    (process_input toyEng toyOps toySt (.MouseButtonDown 0 0 1)).2[0]? = some (1, 0) := by
  have h := claim_C3_outbox_events toyEng toyOps toySt (.MouseButtonDown 0 0 1) [0]
    rfl (by decide)
  refine ⟨h.1, ?_⟩
  have h2 := h.2 0 (by decide)
  simpa [player_to_id, Color.toU8, toyEng] using h2

end TPCMirabel
